import Mathlib

/-!
Verification of the SolitaireGDL engine (src/base.py, src/condition.py,
src/game.py, src/parser.py) against its natural-language specification.
The card/pile data model, the condition engine and the game state machine
are shallowly embedded below; Python objects become immutable values and
in-place mutation becomes explicit state passing.  Methods whose bodies are
absent from the sources (only declared or called there) are modelled from
the specification and marked as such in their doc comments.
-/

namespace SGDL

/-- Suits, from base.py `Suit`. -/
inductive Suit
  | Spades
  | Hearts
  | Clubs
  | Diamonds
deriving DecidableEq, Repr

/-- Suit colors, from base.py `Suit.get_col` (returned strings become an enum). -/
inductive SuitColor
  | Black
  | Red
deriving DecidableEq, Repr

/-- base.py `Suit.get_col`: Spades/Clubs are Black, Hearts/Diamonds are Red. -/
def Suit.getCol : Suit → SuitColor
  | .Spades => .Black
  | .Clubs => .Black
  | .Hearts => .Red
  | .Diamonds => .Red

/-- base.py `Card`: suit, rank, face orientation.  The rank-range assertion of
`Card.__init__` is not needed by any operation and is left out of the type. -/
structure Card where
  suit : Suit
  rank : Nat
  faceDown : Bool
deriving DecidableEq, Repr

/-- base.py `Card.face(is_up=True)`: sets `face_down = not is_up`. -/
def Card.face (c : Card) (isUp : Bool := true) : Card :=
  { c with faceDown := !isUp }

/-- base.py `Card.copy`: a fresh card with the same suit, rank and orientation. -/
def Card.copy (c : Card) : Card :=
  ⟨c.suit, c.rank, c.faceDown⟩

/-- In every card list below, the top of the pile is the LAST element,
matching the Python lists where `cards[-1]` is the top.
`faceTopList` is the recurring idiom `if not self.empty(): self.peak().face()`:
turn the last card of a list face-up, if any. -/
def faceTopList : List Card → List Card
  | [] => []
  | [c] => [c.face true]
  | c :: rest => c :: faceTopList rest

/-- base.py `Stack`: named, indexed pile of cards. -/
structure Stack where
  cards : List Card
  name : String
  ind : Nat
deriving DecidableEq, Repr

/-- base.py `Pile.empty`. -/
def Stack.empty (s : Stack) : Bool :=
  s.cards.isEmpty

/-- base.py `Pile.peak`: the top card; `none` models the assertion failure on
an empty pile. -/
def Stack.peak (s : Stack) : Option Card :=
  s.cards.getLast?

/-- base.py `Stack.get`: pop the top card, then turn the newly exposed top
face-up.  `none` models the assertion failure on an empty pile. -/
def Stack.get (s : Stack) : Option (Card × Stack) :=
  match s.cards.getLast? with
  | none => none
  | some c => some (c, { s with cards := faceTopList s.cards.dropLast })

/-- base.py `Stack.peak_many(from_ind)`: the suffix run starting at
`from_ind` (callers check `from_ind < len` first). -/
def Stack.peakMany (s : Stack) (fromInd : Nat) : List Card :=
  s.cards.drop fromInd

/-- base.py `Stack.get_many(from_ind)`: detach the suffix run, then turn the
newly exposed top face-up. -/
def Stack.getMany (s : Stack) (fromInd : Nat) : List Card × Stack :=
  (s.cards.drop fromInd, { s with cards := faceTopList (s.cards.take fromInd) })

/-- base.py `Stack.add`: append cards on top, preserving their orientation. -/
def Stack.add (s : Stack) (cs : List Card) : Stack :=
  { s with cards := s.cards ++ cs }

/-- base.py `Stack.Face` facing modes. -/
inductive Face
  | FACE_LAST
  | FACE_ALL
  | FACE_ALTERNATE_TOP
deriving DecidableEq, Repr

/-- base.py `Stack.apply_face`, FACE_ALTERNATE_TOP branch: walk the cards from
the top (the Python code iterates `reversed(self.cards)`), turning every other
card face-up starting with the first. -/
def alternateFaceFromTop : Bool → List Card → List Card
  | _, [] => []
  | shouldFace, c :: rest =>
      (if shouldFace then c.face true else c) :: alternateFaceFromTop (!shouldFace) rest

/-- base.py `Stack.apply_face`. -/
def Stack.applyFace (s : Stack) (f : Face) : Stack :=
  match f with
  | .FACE_ALL => { s with cards := s.cards.map (fun c => c.face true) }
  | .FACE_LAST => { s with cards := faceTopList s.cards }
  | .FACE_ALTERNATE_TOP =>
      { s with cards := (alternateFaceFromTop true s.cards.reverse).reverse }

/-- base.py `DealPile`: a draw pile distributed by the deal-draw function. -/
structure DealPile where
  cards : List Card
  targetNames : List String
deriving DecidableEq, Repr

/-- base.py `DealPile.get`: face the top card up, then pop it. -/
def DealPile.get (d : DealPile) : Option (Card × DealPile) :=
  match d.cards.getLast? with
  | none => none
  | some c => some (c.face true, { d with cards := d.cards.dropLast })

/-- base.py `RotateDrawPile`: `cards` is the visible window, `backpile` the
face-down reserve, `drawn` the cards evicted from the window. -/
structure RotateDrawPile where
  cards : List Card
  drawCount : Nat
  viewCount : Option Nat
  maxRedeals : Option Nat
  backpile : List Card
  drawn : List Card
  redeals : Nat
deriving DecidableEq, Repr

/-- One iteration of the loop in base.py `RotateDrawPile.rotate`:
move the front of `backpile` onto the window face-up, then, if the window
exceeds `view_count`, evict the oldest window card (index 0) into `drawn`.
The `[]` case is unreachable because the loop runs `min(draw_count, len(backpile))`
times. -/
def RotateDrawPile.rotateStep (p : RotateDrawPile) : RotateDrawPile :=
  match p.backpile with
  | [] => p
  | b :: rest =>
      let cards1 := p.cards ++ [b.face true]
      match p.viewCount with
      | some v =>
          if v < cards1.length then
            { p with backpile := rest, cards := cards1.drop 1, drawn := p.drawn ++ cards1.take 1 }
          else
            { p with backpile := rest, cards := cards1 }
      | none => { p with backpile := rest, cards := cards1 }

/-- The `for _ in range(n)` loop of base.py `RotateDrawPile.rotate`. -/
def RotateDrawPile.rotateLoop : Nat → RotateDrawPile → RotateDrawPile
  | 0, p => p
  | n + 1, p => RotateDrawPile.rotateLoop n p.rotateStep

/-- base.py `RotateDrawPile.rotate(perform)`. -/
def RotateDrawPile.rotate (p : RotateDrawPile) (perform : Bool := true) : Bool × RotateDrawPile :=
  if 0 < p.backpile.length then
    if !perform then (true, p)
    else (true, RotateDrawPile.rotateLoop (min p.drawCount p.backpile.length) p)
  else if (match p.maxRedeals with | none => true | some m => p.redeals < m) then
    if !perform then (true, p)
    else
      (true, { p with
        redeals := p.redeals + 1,
        backpile := (p.drawn ++ p.cards).map (fun c => c.face false),
        cards := [],
        drawn := [] })
  else (false, p)

/-- base.py `Pile.get` as inherited (not overridden) by `RotateDrawPile`:
pop the top of the visible window without facing anything. -/
def RotateDrawPile.get (p : RotateDrawPile) : Option (Card × RotateDrawPile) :=
  match p.cards.getLast? with
  | none => none
  | some c => some (c, { p with cards := p.cards.dropLast })

/-! ## Condition engine (src/condition.py) -/

/-- condition.py `MathOp`. -/
inductive MathOp
  | EQ
  | GT
  | LT
  | GTE
  | LTE
deriving DecidableEq, Repr

/-- condition.py `SizeCondition.comp`: compare a value against the threshold. -/
def MathOp.comp (op : MathOp) (val threshold : Int) : Bool :=
  match op with
  | .EQ => val == threshold
  | .LT => val < threshold
  | .LTE => val ≤ threshold
  | .GT => threshold < val
  | .GTE => threshold ≤ val

/-- condition.py `MultiSuitCondition.MODE`. -/
inductive SuitMode
  | ALTERNATE_COL
  | MATCH
deriving DecidableEq, Repr

/-- condition.py `MultiSuitCondition._pair_comp`: ALTERNATE_COL needs differing
colors, MATCH needs equal colors. -/
def suitPairComp (mode : SuitMode) (s1 s2 : Suit) : Bool :=
  match mode with
  | .ALTERNATE_COL => s1.getCol != s2.getCol
  | .MATCH => s1.getCol == s2.getCol

/-- condition.py `MultiRankCondition.MODE`. -/
inductive RankMode
  | ASC
  | DES
deriving DecidableEq, Repr

/-- condition.py `MultiRankCondition._pair_comp`: strictly consecutive ranks. -/
def rankPairComp (mode : RankMode) (r1 r2 : Nat) : Bool :=
  match mode with
  | .ASC => r1 + 1 == r2
  | .DES => r1 == r2 + 1

/-- condition.py `MultiSuitCondition.comp` / `MultiRankCondition.comp`:
the pairwise test holds for every adjacent pair of the sequence
(`for i in range(1, len(l)): if not pair(l[i-1], l[i]): return False`). -/
def pairwiseAll (f : α → α → Bool) : List α → Bool
  | [] => true
  | [_] => true
  | a :: b :: rest => f a b && pairwiseAll f (b :: rest)

/-- condition.py `MoveCardComponents`: the source card and the destination stack. -/
structure MoveCardComponents where
  source : Card
  destination : Stack

/-- condition.py `MoveStackComponents`: the run being moved and the destination
stack; its `source` is `stack[0]` (call sites guarantee the run is nonempty). -/
structure MoveStackComponents where
  stack : List Card
  destination : Stack

/-- `MoveStackComponents.__init__` sets `source = stack[0]`. -/
def MoveStackComponents.source (c : MoveStackComponents) : Card :=
  c.stack.headD ⟨Suit.Spades, 1, false⟩

/-- The single-card move conditions the rule tables can hold: the leaves of
condition.py usable with `MoveCardComponents` plus `AndSubTree`/`OrSubTree`
composites, exactly the trees `Parser.extract_move_cond` builds. -/
inductive MoveCond
  | destEmpty
  | destSize (op : MathOp) (threshold : Int)
  | destSrcSuit (mode : SuitMode)
  | destSrcRank (mode : RankMode)
  | srcSuit (suits : List Suit)
  | srcRank (ranks : List Nat)
  | and (subs : List MoveCond)
  | or (subs : List MoveCond)

mutual

/-- condition.py `evaluate` for the single-card conditions; `AndSubTree`
returns false at the first false subtree, `OrSubTree` true at the first true. -/
def evalMoveCond : MoveCond → MoveCardComponents → Bool
  | .destEmpty, c => c.destination.cards.isEmpty
  | .destSize op t, c => op.comp c.destination.cards.length t
  | .destSrcSuit mode, c =>
      match c.destination.cards.getLast? with
      | none => false
      | some top => pairwiseAll (suitPairComp mode) [top.suit, c.source.suit]
  | .destSrcRank mode, c =>
      match c.destination.cards.getLast? with
      | none => false
      | some top => pairwiseAll (rankPairComp mode) [top.rank, c.source.rank]
  | .srcSuit suits, c => suits.contains c.source.suit
  | .srcRank ranks, c => ranks.contains c.source.rank
  | .and subs, c => evalMoveCondAll subs c
  | .or subs, c => evalMoveCondAny subs c

def evalMoveCondAll : List MoveCond → MoveCardComponents → Bool
  | [], _ => true
  | t :: rest, c => evalMoveCond t c && evalMoveCondAll rest c

def evalMoveCondAny : List MoveCond → MoveCardComponents → Bool
  | [], _ => false
  | t :: rest, c => evalMoveCond t c || evalMoveCondAny rest c

end

/-- The run-move conditions: the `SRCSTACK` leaves of condition.py, any
single-card condition (`Parser.parse_move_stack_condition` falls back to
`parse_move_condition`), and AND/OR composites. -/
inductive StackCond
  | stackSize (op : MathOp) (threshold : Int)
  | stackSuit (mode : SuitMode)
  | stackRank (mode : RankMode)
  | move (m : MoveCond)
  | and (subs : List StackCond)
  | or (subs : List StackCond)

mutual

/-- condition.py `evaluate` for run conditions over `MoveStackComponents`;
embedded single-card leaves see `source = stack[0]` and the destination. -/
def evalStackCond : StackCond → MoveStackComponents → Bool
  | .stackSize op t, c => op.comp c.stack.length t
  | .stackSuit mode, c => pairwiseAll (suitPairComp mode) (c.stack.map Card.suit)
  | .stackRank mode, c => pairwiseAll (rankPairComp mode) (c.stack.map Card.rank)
  | .move m, c => evalMoveCond m ⟨c.source, c.destination⟩
  | .and subs, c => evalStackCondAll subs c
  | .or subs, c => evalStackCondAny subs c

def evalStackCondAll : List StackCond → MoveStackComponents → Bool
  | [], _ => true
  | t :: rest, c => evalStackCond t c && evalStackCondAll rest c

def evalStackCondAny : List StackCond → MoveStackComponents → Bool
  | [], _ => false
  | t :: rest, c => evalStackCond t c || evalStackCondAny rest c

end

/-! ## Game state machine (src/game.py) -/

/-- game.py `StackPilePos`: a named stack plus its instance index. -/
structure StackPos where
  pilename : String
  ind : Nat
deriving DecidableEq, Repr

/-- game.py `PilePos`/`DrawPilePos`/`StackPilePos` as a closed sum:
either the draw pile or a concrete stack position. -/
inductive PilePos
  | draw
  | stack (p : StackPos)
deriving DecidableEq, Repr

/-- The `pilename` attribute used as rule-table key: `DrawPilePos` carries
the name `DRAW`. -/
def PilePos.pilename : PilePos → String
  | .draw => "DRAW"
  | .stack p => p.pilename

/-- game.py `RunPos`: a stack position plus the start index of the run. -/
structure RunPos where
  stackPos : StackPos
  fromInd : Nat
deriving DecidableEq, Repr

/-- `str(StackPilePos)` renders as `NAME[index]`. -/
def StackPos.str (p : StackPos) : String :=
  p.pilename ++ "[" ++ toString p.ind ++ "]"

/-- `str(PilePos)`: the draw pile renders as `DRAW`. -/
def PilePos.str : PilePos → String
  | .draw => "DRAW"
  | .stack p => p.str

/-- The two draw-pile styles a game may own. -/
inductive DrawPile
  | deal (d : DealPile)
  | rot (r : RotateDrawPile)
deriving DecidableEq, Repr

/-- base.py `Pile.peak` on whichever draw pile the game owns. -/
def DrawPile.peak : DrawPile → Option Card
  | .deal d => d.cards.getLast?
  | .rot r => r.cards.getLast?

/-- `get` on the draw pile: `DealPile.get` faces the popped card up, while
`RotateDrawPile` inherits the plain `Pile.get`. -/
def DrawPile.get : DrawPile → Option (Card × DrawPile)
  | .deal d => (DealPile.get d).map (fun x => (x.1, .deal x.2))
  | .rot r => (RotateDrawPile.get r).map (fun x => (x.1, .rot x.2))

/-- game.py `Game`.  `name_to_piles` is a name-keyed table of stack lists
(insertion-ordered association list; `define_pile` keeps keys unique);
the four rule tables are keyed by `(source name, destination name)`.
The deck is the list of not-yet-dealt cards (game.py `Deck.cards`). -/
structure Game where
  deck : List Card
  drawPile : Option DrawPile
  nameToPiles : List (String × List Stack)
  moveConditions : List ((String × String) × MoveCond)
  moveStackConditions : List ((String × String) × StackCond)
  autoMoveConditions : List ((String × String) × MoveCond)
  autoMoveStackConditions : List ((String × String) × StackCond)

/-- game.py `Game.is_win`: the source is the stub `return False  # TODO`. -/
def Game.isWin (_ : Game) : Bool :=
  false

/-- game.py `Game._get_stack`: `None` when the name is unknown or the index
is out of range. -/
def Game.getStack (g : Game) (pos : StackPos) : Option Stack :=
  match g.nameToPiles.lookup pos.pilename with
  | none => none
  | some piles => piles.get? pos.ind

/-- Write a stack back at its position (the Python code mutates the stack
object held in `name_to_piles` in place). -/
def Game.setStack (g : Game) (pos : StackPos) (s : Stack) : Game :=
  { g with nameToPiles :=
      g.nameToPiles.map (fun e => if e.1 == pos.pilename then (e.1, e.2.set pos.ind s) else e) }

/-- Write the draw pile back (the Python code mutates `self.draw_pile` in place). -/
def Game.setDrawPile (g : Game) (d : DrawPile) : Game :=
  { g with drawPile := some d }

/-- game.py `Game.move(src_pos, dest_pos, perform)`.  `none` models the
assertions on nonexistent piles; `some (false, g)` is an infeasible move
(state untouched); on success with `perform`, `dest_pile.add([src_pile.get()])`
runs — when source and destination are the same stack object the `get` and the
`add` hit that one object in sequence. -/
def Game.move (g : Game) (srcPos : PilePos) (destPos : StackPos) (perform : Bool := true) :
    Option (Bool × Game) :=
  match srcPos with
  | .draw =>
    match g.drawPile with
    | none => none
    | some dp =>
      match g.getStack destPos with
      | none => none
      | some destStack =>
        match g.moveConditions.lookup ("DRAW", destPos.pilename) with
        | none => some (false, g)
        | some cond =>
          match dp.peak with
          | none => some (false, g)
          | some top =>
            if top.faceDown then some (false, g)
            else if !evalMoveCond cond ⟨top, destStack⟩ then some (false, g)
            else some (true,
              if perform then
                match dp.get with
                | none => g
                | some (c, dp') => (g.setDrawPile dp').setStack destPos (destStack.add [c])
              else g)
  | .stack sp =>
    match g.getStack sp with
    | none => none
    | some srcStack =>
      match g.getStack destPos with
      | none => none
      | some destStack =>
        match g.moveConditions.lookup (sp.pilename, destPos.pilename) with
        | none => some (false, g)
        | some cond =>
          match srcStack.cards.getLast? with
          | none => some (false, g)
          | some top =>
            if top.faceDown then some (false, g)
            else if !evalMoveCond cond ⟨top, destStack⟩ then some (false, g)
            else some (true,
              if perform then
                match srcStack.get with
                | none => g
                | some (c, src') =>
                  if sp = destPos then g.setStack destPos (src'.add [c])
                  else (g.setStack sp src').setStack destPos (destStack.add [c])
              else g)

/-- game.py `Game.move_stack(src_pos, dest_pos, perform)`: moving a run;
infeasible when no rule is registered, the start index is out of range, any
card of the run is face-down, or the condition fails. -/
def Game.moveStack (g : Game) (srcPos : RunPos) (destPos : StackPos) (perform : Bool := true) :
    Option (Bool × Game) :=
  match g.getStack srcPos.stackPos with
  | none => none
  | some srcStack =>
    match g.getStack destPos with
    | none => none
    | some destStack =>
      match g.moveStackConditions.lookup (srcPos.stackPos.pilename, destPos.pilename) with
      | none => some (false, g)
      | some cond =>
        if srcStack.cards.length ≤ srcPos.fromInd
            || (srcStack.peakMany srcPos.fromInd).any Card.faceDown then
          some (false, g)
        else if !evalStackCond cond ⟨srcStack.peakMany srcPos.fromInd, destStack⟩ then
          some (false, g)
        else some (true,
          if perform then
            let run := (srcStack.getMany srcPos.fromInd).1
            let src' := (srcStack.getMany srcPos.fromInd).2
            if srcPos.stackPos = destPos then g.setStack destPos (src'.add run)
            else (g.setStack srcPos.stackPos src').setStack destPos (destStack.add run)
          else g)

/-! ## The deal-draw function (game.py `Game.define_deal_draw`) -/

/-- The inner loop of `deal_draw` for one target name:
`for pile in piles: if not draw_pile.empty(): pile.add([draw_pile.get()])`.
Each non-exhausted step hands the deal pile's top card over face-up
(`DealPile.get` faces it before popping). -/
def giveEach : List Card → List Stack → List Card × List Stack
  | dl, [] => (dl, [])
  | dl, s :: rest =>
    match dl.getLast? with
    | none =>
        let r := giveEach dl rest
        (r.1, s :: r.2)
    | some c =>
        let r := giveEach dl.dropLast rest
        (r.1, s.add [c.face true] :: r.2)

/-- The key-preserving table update performed when the stacks under one name
have been mutated in place. -/
def updateKey (m : List (String × List Stack)) (name : String) (v : List Stack) :
    List (String × List Stack) :=
  m.map (fun e =>
    match e.1 == name with
    | true => (e.1, v)
    | false => e)

/-- The outer loop of `deal_draw`:
`for name in targets: for pile in self.name_to_piles.get(name, []): ...`,
threading the deal pile through the names in order. -/
def dealNames : List Card → List String → List (String × List Stack) →
    List Card × List (String × List Stack)
  | dl, [], m => (dl, m)
  | dl, nm :: rest, m =>
      let ss := (m.lookup nm).getD []
      let r := giveEach dl ss
      dealNames r.1 rest (updateKey m nm r.2)

/-- game.py `deal_draw` (the closure installed by `Game.define_deal_draw`):
infeasible when the deal pile is empty; a dry run mutates nothing; otherwise
one pass over the target names hands one face-up card to each target pile
while cards remain. -/
def Game.dealDraw (g : Game) (d : DealPile) (perform : Bool) : Bool × Game :=
  if d.cards.length = 0 then (false, g)
  else if !perform then (true, g)
  else
    let r := dealNames d.cards d.targetNames g.nameToPiles
    (true, { g with drawPile := some (.deal ⟨r.1, d.targetNames⟩), nameToPiles := r.2 })

/-- game.py `Game.draw`: delegates to the draw function installed for the
game's draw-pile style (`deal_draw`, or the bound `RotateDrawPile.rotate`);
`none` models the missing `draw_func` when no draw pile was defined. -/
def Game.draw (g : Game) (perform : Bool := true) : Option (Bool × Game) :=
  match g.drawPile with
  | none => none
  | some (.deal d) => some (g.dealDraw d perform)
  | some (.rot r) =>
      let x := r.rotate perform
      some (x.1, { g with drawPile := some (.rot x.2) })

/-- game.py `Game.define_deal_draw`: deal `count` cards off the deck into a
`DealPile` (the target names are those the draw closure captures; base.py's
`DealPile.__init__` stores the same list). -/
def Game.defineDealDraw (g : Game) (count : Nat) (targets : List String) : Game :=
  { g with drawPile := some (.deal ⟨g.deck.take count, targets⟩), deck := g.deck.drop count }

/-- game.py `Game.define_rotate_draw`. -/
def Game.defineRotateDraw (g : Game) (count drawCount : Nat)
    (viewCount maxRedeals : Option Nat) : Game :=
  { g with drawPile := some (.rot ⟨[], drawCount, viewCount, maxRedeals, g.deck.take count, [], 0⟩),
           deck := g.deck.drop count }

/-- game.py `Game.define_pile`: deal `count` cards off the deck unless explicit
starting cards are given, apply the facing mode, and append the stack under its
name with the next instance index. -/
def Game.definePile (g : Game) (pileName : String) (count : Nat) (face : Face)
    (startingCards : Option (List Card)) : Game :=
  let cards := startingCards.getD (g.deck.take count)
  let deck' := if startingCards.isSome then g.deck else g.deck.drop count
  let existing := (g.nameToPiles.lookup pileName).getD []
  let pile := (Stack.mk cards pileName existing.length).applyFace face
  let table :=
    if (g.nameToPiles.lookup pileName).isSome then
      g.nameToPiles.map (fun e => if e.1 == pileName then (e.1, e.2 ++ [pile]) else e)
    else g.nameToPiles ++ [(pileName, [pile])]
  { g with deck := deck', nameToPiles := table }

/-- `self.name_to_piles.get(name, [])`. -/
def Game.lookupPiles (g : Game) (nm : String) : List Stack :=
  (g.nameToPiles.lookup nm).getD []

/-! ## Win conditions

src/game.py's `is_win` is the stub `return False  # TODO`, and the `Game`
methods src/parser.py calls to install the `$win` tree (`define_win_cond`)
and to evaluate it are not in the sources.  The whole-board condition trees
themselves are modelled from the specification below so that the stub can be
compared with the intended win detection. -/

/-- Modelled from the spec: the ALL/ANY quantifier (`mode`) of the whole-board
pile conditions. -/
inductive AllAny
  | ALL
  | ANY
deriving DecidableEq, Repr

/-- Modelled from the spec: whole-board condition trees for `$win`/`DRAW`
rules — pile-emptiness and pile-size leaves aggregated across a named set of
piles under an ALL/ANY quantifier, plus AND/OR composites.  The corresponding
`PileEmptyCondition`/`PileSizeCondition` classes are referenced by
src/parser.py but missing from src/condition.py. -/
inductive GeneralCond
  | pileEmpty (names : List String) (mode : AllAny)
  | pileSize (names : List String) (mode : AllAny) (op : MathOp) (threshold : Int)
  | and (subs : List GeneralCond)
  | or (subs : List GeneralCond)

/-- Aggregate a predicate over a list of stacks under the ALL/ANY mode. -/
def aggregate (mode : AllAny) (ss : List Stack) (p : Stack → Bool) : Bool :=
  match mode with
  | .ALL => ss.all p
  | .ANY => ss.any p

mutual

/-- Modelled from the spec: evaluating a whole-board condition tree against
the current board. -/
def evalGeneralCond (g : Game) : GeneralCond → Bool
  | .pileEmpty names mode => aggregate mode (names.flatMap g.lookupPiles) (fun s => s.cards.isEmpty)
  | .pileSize names mode op t =>
      aggregate mode (names.flatMap g.lookupPiles) (fun s => op.comp s.cards.length t)
  | .and subs => evalGeneralCondAll g subs
  | .or subs => evalGeneralCondAny g subs

def evalGeneralCondAll (g : Game) : List GeneralCond → Bool
  | [] => true
  | t :: rest => evalGeneralCond g t && evalGeneralCondAll g rest

def evalGeneralCondAny (g : Game) : List GeneralCond → Bool
  | [] => false
  | t :: rest => evalGeneralCond g t || evalGeneralCondAny g rest

end

/-! ## Automatic-move resolution

The specification has every successful performed move/draw trigger
`checkAutoMoves`, a greedy fixed-point loop over the auto rule tables.
src/game.py populates those tables (`define_auto_move`,
`define_auto_stack_move`) but contains no code that ever reads them; the
resolution loop is modelled from the specification below. -/

/-- game.py `Game._get_stack_pile_positions`: one position per stack
registered under the name, carrying its instance index. -/
def Game.stackPositionsOf (g : Game) (nm : String) : List StackPos :=
  (g.lookupPiles nm).map (fun s => ⟨nm, s.ind⟩)

/-- game.py `Game._get_pile_positions`: the name `DRAW` denotes the draw pile. -/
def Game.pilePositionsOf (g : Game) (nm : String) : List PilePos :=
  if nm == "DRAW" then [.draw] else (g.stackPositionsOf nm).map .stack

/-- Modelled from the spec: `move` with the `auto` capability flag set — it
consults the auto-move rule table instead of the manual one but is otherwise
identical to `Game.move`. -/
def Game.moveAuto (g : Game) (srcPos : PilePos) (destPos : StackPos) (perform : Bool := true) :
    Option (Bool × Game) :=
  match srcPos with
  | .draw =>
    match g.drawPile with
    | none => none
    | some dp =>
      match g.getStack destPos with
      | none => none
      | some destStack =>
        match g.autoMoveConditions.lookup ("DRAW", destPos.pilename) with
        | none => some (false, g)
        | some cond =>
          match dp.peak with
          | none => some (false, g)
          | some top =>
            if top.faceDown then some (false, g)
            else if !evalMoveCond cond ⟨top, destStack⟩ then some (false, g)
            else some (true,
              if perform then
                match dp.get with
                | none => g
                | some (c, dp') => (g.setDrawPile dp').setStack destPos (destStack.add [c])
              else g)
  | .stack sp =>
    match g.getStack sp with
    | none => none
    | some srcStack =>
      match g.getStack destPos with
      | none => none
      | some destStack =>
        match g.autoMoveConditions.lookup (sp.pilename, destPos.pilename) with
        | none => some (false, g)
        | some cond =>
          match srcStack.cards.getLast? with
          | none => some (false, g)
          | some top =>
            if top.faceDown then some (false, g)
            else if !evalMoveCond cond ⟨top, destStack⟩ then some (false, g)
            else some (true,
              if perform then
                match srcStack.get with
                | none => g
                | some (c, src') =>
                  if sp = destPos then g.setStack destPos (src'.add [c])
                  else (g.setStack sp src').setStack destPos (destStack.add [c])
              else g)

/-- Modelled from the spec: `move_stack` with the `auto` capability flag set —
it consults the auto run-move rule table instead of the manual one. -/
def Game.moveStackAuto (g : Game) (srcPos : RunPos) (destPos : StackPos) (perform : Bool := true) :
    Option (Bool × Game) :=
  match g.getStack srcPos.stackPos with
  | none => none
  | some srcStack =>
    match g.getStack destPos with
    | none => none
    | some destStack =>
      match g.autoMoveStackConditions.lookup (srcPos.stackPos.pilename, destPos.pilename) with
      | none => some (false, g)
      | some cond =>
        if srcStack.cards.length ≤ srcPos.fromInd
            || (srcStack.peakMany srcPos.fromInd).any Card.faceDown then
          some (false, g)
        else if !evalStackCond cond ⟨srcStack.peakMany srcPos.fromInd, destStack⟩ then
          some (false, g)
        else some (true,
          if perform then
            let run := (srcStack.getMany srcPos.fromInd).1
            let src' := (srcStack.getMany srcPos.fromInd).2
            if srcPos.stackPos = destPos then g.setStack destPos (src'.add run)
            else (g.setStack srcPos.stackPos src').setStack destPos (destStack.add run)
          else g)

/-- Modelled from the spec: whether any candidate automatic action is
currently legal — every registered auto rule is tried over every concrete
source/destination position pair (a pile never moves onto itself; run starts
range over `0 ≤ i < len-1` as in `_get_move_stack_actions`), each probed with
a dry run.  A board on which automatic-move resolution has reached its fixed
point reports `false`. -/
def Game.autoMoveApplicable (g : Game) : Bool :=
  (g.autoMoveConditions.any (fun e =>
    (g.pilePositionsOf e.1.1).any (fun sp =>
      (g.stackPositionsOf e.1.2).any (fun dp =>
        sp.str != dp.str && ((g.moveAuto sp dp false).map Prod.fst).getD false))))
  || (g.autoMoveStackConditions.any (fun e =>
    (g.stackPositionsOf e.1.1).any (fun sp =>
      (g.stackPositionsOf e.1.2).any (fun dp =>
        (List.range ((g.getStack sp).elim 0 (fun s => s.cards.length) - 1)).any (fun i =>
          sp.str != dp.str && ((g.moveStackAuto ⟨sp, i⟩ dp false).map Prod.fst).getD false)))))

/-! ## The `$initial` facing mode (src/parser.py `Parser.apply_initial`) -/

/-- The string values of base.py `Stack.Face` (note the enum member
`FACE_ALTERNATE_TOP` carries the value `FACE_ALTERNATE_LAST`); the membership
test `parts[2] in Stack.Face` compares against these values. -/
def faceTokens : List String :=
  ["FACE_LAST", "FACE_ALL", "FACE_ALTERNATE_LAST"]

/-- parser.py `Parser.parse_pile_face`: map a facing token to its mode
(`none` models the raised exception). -/
def parsePileFace (s : String) : Option Face :=
  if s == "FACE_LAST" then some .FACE_LAST
  else if s == "FACE_ALL" then some .FACE_ALL
  else if s == "FACE_ALTERNATE_LAST" then some .FACE_ALTERNATE_TOP
  else none

/-- parser.py `Parser.apply_initial`, named-stack branch: the facing mode the
pile is built with.  `face` is initialized to the DSL default `FACE_LAST`;
when a facing token is present the source computes
`Parser.parse_pile_face(parts[2])` but never assigns the result to `face`
(the `let _ :=` mirrors that discarded call), so `face` is what reaches
`game.define_pile`. -/
def initialFaceOf (parts : List String) : Face :=
  let face := Face.FACE_LAST
  let _ := if 2 < parts.length && faceTokens.contains (parts.getD 2 "") then
    parsePileFace (parts.getD 2 "") else none
  face

/-! ## `Game.copy` independence (claim C3)

`Game.copy` is called throughout src/player.py and src/simlulate*.py but its
body is absent from src/game.py; it is modelled from the specification:
a deep copy of deck/piles/cards built with the `copy` methods of src/base.py
(each `Card.copy` allocates a fresh object with the same value), while the
rule tables and condition trees are shared by reference.  Object identity —
what deep-versus-shallow copying is about — is made explicit by a card store:
a card reference is an index into the store, and piles hold references. -/

/-- A game with explicit card identities: `store` maps a card reference (its
index) to the card value; the deck, the draw pile and the named stacks hold
references; `ruleTablesRef` stands for the identity of the shared rule tables
and condition trees. -/
structure HGame where
  store : List Card
  deckRefs : List Nat
  drawRefs : List Nat
  pileRefs : List (String × List (List Nat))
  ruleTablesRef : Nat

/-- Every card reference a game's deck, draw pile and stacks hold. -/
def HGame.allRefs (g : HGame) : List Nat :=
  g.deckRefs ++ g.drawRefs ++ g.pileRefs.flatMap (fun e => e.2.flatMap id)

/-- Modelled from the spec: `Game.copy()` — every card is re-allocated via
`Card.copy` (a fresh reference holding an equal value), the deck/draw/pile
structure is rebuilt over the fresh references, and the rule tables are
shared (same reference). -/
def HGame.copy (g : HGame) : HGame :=
  let n := g.store.length
  { store := g.store ++ g.store.map Card.copy
    deckRefs := g.deckRefs.map (· + n)
    drawRefs := g.drawRefs.map (· + n)
    pileRefs := g.pileRefs.map (fun e => (e.1, e.2.map (List.map (· + n))))
    ruleTablesRef := g.ruleTablesRef }

/-! ## Lemmas about the rotate automaton -/

/-- The card count across the three sequences of a rotate draw pile. -/
def RotateDrawPile.total (p : RotateDrawPile) : Nat :=
  p.backpile.length + p.cards.length + p.drawn.length

/-- A sequence of `rotate` calls with the given perform flags. -/
def rotateSeq (fs : List Bool) (p : RotateDrawPile) : RotateDrawPile :=
  fs.foldl (fun q b => (q.rotate b).2) p

theorem rotateStep_total (p : RotateDrawPile) : p.rotateStep.total = p.total := by
  obtain ⟨cs, dc, vc, mr, bp, dn, rd⟩ := p
  cases bp with
  | nil => rfl
  | cons b rest =>
    cases vc with
    | none => simp [RotateDrawPile.rotateStep, RotateDrawPile.total]; omega
    | some v =>
      by_cases hv : v < cs.length + 1
      · simp [RotateDrawPile.rotateStep, RotateDrawPile.total, hv]
        omega
      · simp [RotateDrawPile.rotateStep, RotateDrawPile.total, hv]
        omega

theorem rotateLoop_total (n : Nat) (p : RotateDrawPile) :
    (RotateDrawPile.rotateLoop n p).total = p.total := by
  induction n generalizing p with
  | zero => rfl
  | succ n ih => rw [RotateDrawPile.rotateLoop, ih, rotateStep_total]

theorem rotate_total (p : RotateDrawPile) (perform : Bool) :
    (p.rotate perform).2.total = p.total := by
  unfold RotateDrawPile.rotate
  by_cases h1 : 0 < p.backpile.length
  · cases perform <;> simp [h1, rotateLoop_total]
  · cases hm : p.maxRedeals with
    | none =>
      cases perform <;> simp [h1, hm, RotateDrawPile.total] <;> try omega
    | some m =>
      by_cases h2 : p.redeals < m
      · cases perform <;> simp [h1, hm, h2, RotateDrawPile.total] <;> try omega
      · simp [h1, hm, h2]

theorem rotateStep_spec (p : RotateDrawPile) (b : Card) (rest : List Card)
    (hb : p.backpile = b :: rest) :
    p.rotateStep.backpile = rest ∧
    p.rotateStep.drawn ++ p.rotateStep.cards = p.drawn ++ p.cards ++ [b.face true] ∧
    p.rotateStep.drawCount = p.drawCount ∧
    p.rotateStep.viewCount = p.viewCount ∧
    p.rotateStep.maxRedeals = p.maxRedeals ∧
    p.rotateStep.redeals = p.redeals ∧
    p.rotateStep.cards.length =
      (match p.viewCount with
       | some v => min (p.cards.length + 1) (max v p.cards.length)
       | none => p.cards.length + 1) := by
  obtain ⟨cs, dc, vc, mr, bp, dn, rd⟩ := p
  simp only at hb
  subst hb
  cases vc with
  | none => simp [RotateDrawPile.rotateStep]
  | some v =>
    by_cases hv : v < cs.length + 1
    · simp [RotateDrawPile.rotateStep, hv]
      constructor
      · cases cs with
        | nil => simp
        | cons c cs' => simp
      · omega
    · simp [RotateDrawPile.rotateStep, hv]
      omega

theorem rotateLoop_spec (n : Nat) (p : RotateDrawPile) (h : n ≤ p.backpile.length) :
    (RotateDrawPile.rotateLoop n p).backpile = p.backpile.drop n ∧
    (RotateDrawPile.rotateLoop n p).drawn ++ (RotateDrawPile.rotateLoop n p).cards
      = p.drawn ++ p.cards ++ (p.backpile.take n).map (fun c => c.face true) ∧
    (RotateDrawPile.rotateLoop n p).drawCount = p.drawCount ∧
    (RotateDrawPile.rotateLoop n p).viewCount = p.viewCount ∧
    (RotateDrawPile.rotateLoop n p).maxRedeals = p.maxRedeals ∧
    (RotateDrawPile.rotateLoop n p).redeals = p.redeals ∧
    (∀ v, p.viewCount = some v →
      (RotateDrawPile.rotateLoop n p).cards.length
        = min (p.cards.length + n) (max v p.cards.length)) := by
  induction n generalizing p with
  | zero =>
    refine ⟨rfl, by simp [RotateDrawPile.rotateLoop], rfl, rfl, rfl, rfl, ?_⟩
    intro v hv
    simp only [RotateDrawPile.rotateLoop]
    omega
  | succ n ih =>
    cases hbp : p.backpile with
    | nil => rw [hbp] at h; simp at h
    | cons b rest =>
      obtain ⟨s1, s2, s3, s4, s5, s6, s7⟩ := rotateStep_spec p b rest hbp
      have hrest : n ≤ p.rotateStep.backpile.length := by
        rw [s1]; rw [hbp] at h; simpa using Nat.le_of_succ_le_succ h
      obtain ⟨i1, i2, i3, i4, i5, i6, i7⟩ := ih p.rotateStep hrest
      rw [RotateDrawPile.rotateLoop]
      refine ⟨?_, ?_, by rw [i3, s3], by rw [i4, s4], by rw [i5, s5], by rw [i6, s6], ?_⟩
      · rw [i1, s1]
        simp
      · rw [i2, s1, List.take_succ_cons, List.map_cons]
        have s2' := congrArg
          (fun l => l ++ List.map (fun c => c.face true) (List.take n rest)) s2
        simp only [List.append_assoc, List.singleton_append] at s2' ⊢
        exact s2'
      · intro v hv
        have hv' : p.rotateStep.viewCount = some v := by rw [s4, hv]
        have := i7 v hv'
        rw [this]
        have : p.rotateStep.cards.length = min (p.cards.length + 1) (max v p.cards.length) := by
          rw [s7, hv]
        rw [this]
        omega

/-! ## Claim C6 -/

/-- Claim C6: for every `RotateDrawPile` and every sequence of `rotate` calls
(performed or dry, feasible or not), `|backpile| + |cards| + |drawn|` keeps
its initial value — cards move between the three sequences but never vanish
or get duplicated. -/
theorem claim_C6 :
    (∀ (p : RotateDrawPile) (perform : Bool),
      (p.rotate perform).2.backpile.length + (p.rotate perform).2.cards.length
          + (p.rotate perform).2.drawn.length
        = p.backpile.length + p.cards.length + p.drawn.length) ∧
    (∀ (fs : List Bool) (p : RotateDrawPile),
      (rotateSeq fs p).backpile.length + (rotateSeq fs p).cards.length
          + (rotateSeq fs p).drawn.length
        = p.backpile.length + p.cards.length + p.drawn.length) := by
  constructor
  · intro p perform
    exact rotate_total p perform
  · intro fs
    induction fs with
    | nil => intro p; rfl
    | cons b rest ih =>
      intro p
      have h1 := rotate_total p b
      have h2 := ih (p.rotate b).2
      unfold RotateDrawPile.total at h1
      calc (rotateSeq (b :: rest) p).backpile.length + (rotateSeq (b :: rest) p).cards.length
              + (rotateSeq (b :: rest) p).drawn.length
          = (rotateSeq rest (p.rotate b).2).backpile.length
              + (rotateSeq rest (p.rotate b).2).cards.length
              + (rotateSeq rest (p.rotate b).2).drawn.length := rfl
        _ = (p.rotate b).2.backpile.length + (p.rotate b).2.cards.length
              + (p.rotate b).2.drawn.length := h2
        _ = p.backpile.length + p.cards.length + p.drawn.length := h1

/-! ## Claim C5 -/

/-- The three cards of the spec's RotateDrawPile worked example, face-down in
the backpile, in draw order A, B, C. -/
def c5A : Card := ⟨.Spades, 1, true⟩

def c5B : Card := ⟨.Hearts, 2, true⟩

def c5C : Card := ⟨.Clubs, 3, true⟩

/-- The example pile: `drawCount=1, viewCount=1, maxRedeals=1`, backpile `[A,B,C]`. -/
def c5p0 : RotateDrawPile := ⟨[], 1, some 1, some 1, [c5A, c5B, c5C], [], 0⟩

/-- After rotate 1: cards=[A] (face-up), backpile=[B,C]. -/
def c5p1 : RotateDrawPile := ⟨[c5A.face true], 1, some 1, some 1, [c5B, c5C], [], 0⟩

/-- After rotate 2: drawn=[A], cards=[B], backpile=[C]. -/
def c5p2 : RotateDrawPile := ⟨[c5B.face true], 1, some 1, some 1, [c5C], [c5A.face true], 0⟩

/-- After rotate 3: drawn=[A,B], cards=[C], backpile=[]. -/
def c5p3 : RotateDrawPile :=
  ⟨[c5C.face true], 1, some 1, some 1, [], [c5A.face true, c5B.face true], 0⟩

/-- After rotate 4 (redeal): redeals=1, backpile=[A,B,C] all face-down,
cards=[], drawn=[]. -/
def c5p4 : RotateDrawPile := ⟨[], 1, some 1, some 1, [c5A, c5B, c5C], [], 1⟩

/-- After rotate 5: the backpile was repopulated by the redeal, so the fifth
call draws again — cards=[A], backpile=[B,C], redeals=1. -/
def c5p5 : RotateDrawPile := ⟨[c5A.face true], 1, some 1, some 1, [c5B, c5C], [], 1⟩

/-- After rotate 7: cards=[C], drawn=[A,B], backpile=[], redeals=1 — the
state at which the next call is the first infeasible one. -/
def c5p7 : RotateDrawPile :=
  ⟨[c5C.face true], 1, some 1, some 1, [], [c5A.face true, c5B.face true], 1⟩

/-- Claim C5 counterexample: in the spec's worked example the fifth `rotate`
does NOT return false — after the fourth call's redeal the backpile is
`[A,B,C]` again, so the fifth call succeeds and mutates the pile (it moves A
back into the window). -/
theorem claim_C5_counterexample :
    rotateSeq [true, true, true, true] c5p0 = c5p4 ∧
    (c5p4.rotate true).1 = true ∧
    (c5p4.rotate true).2 ≠ c5p4 := by
  refine ⟨rfl, rfl, ?_⟩
  decide

/-- Claim C5 (amended): a performed `rotate` on a non-empty backpile moves
`min(drawCount, |backpile|)` cards from the front of the backpile onto the
window face-up, evicting the oldest window card into `drawn` whenever
`viewCount` is exceeded (so the window length becomes
`min(|cards|+k, max(viewCount, |cards|))`); in the worked example the first
four rotates produce exactly the states of the spec's trace, but the fifth
call returns true and draws A again (the first infeasible call is the eighth,
once the backpile is exhausted a second time with `redeals = maxRedeals`). -/
theorem claim_C5 :
    (∀ (p : RotateDrawPile), p.backpile ≠ [] →
      (p.rotate true).1 = true ∧
      (p.rotate true).2.backpile = p.backpile.drop (min p.drawCount p.backpile.length) ∧
      (p.rotate true).2.drawn ++ (p.rotate true).2.cards
        = p.drawn ++ p.cards
          ++ (p.backpile.take (min p.drawCount p.backpile.length)).map (fun c => c.face true) ∧
      (∀ v, p.viewCount = some v →
        (p.rotate true).2.cards.length
          = min (p.cards.length + min p.drawCount p.backpile.length)
              (max v p.cards.length))) ∧
    c5p0.rotate true = (true, c5p1) ∧
    c5p1.rotate true = (true, c5p2) ∧
    c5p2.rotate true = (true, c5p3) ∧
    c5p3.rotate true = (true, c5p4) ∧
    c5p4.rotate true = (true, c5p5) ∧
    c5p7.rotate true = (false, c5p7) := by
  constructor
  · intro p hne
    have h0 : 0 < p.backpile.length := List.length_pos.mpr hne
    have hr : p.rotate true
        = (true, RotateDrawPile.rotateLoop (min p.drawCount p.backpile.length) p) := by
      unfold RotateDrawPile.rotate
      simp [h0]
    obtain ⟨a1, a2, _, a4, _, _, a7⟩ :=
      rotateLoop_spec (min p.drawCount p.backpile.length) p (Nat.min_le_right _ _)
    rw [hr]
    exact ⟨rfl, a1, a2, fun v hv => a7 v hv⟩
  · exact ⟨rfl, rfl, rfl, rfl, rfl, rfl⟩

/-- Claim C5 witness: the general part of `claim_C5` applied to the concrete
example pile. -/
theorem claim_C5_witness :
    (c5p0.rotate true).2.backpile
        = c5p0.backpile.drop (min c5p0.drawCount c5p0.backpile.length) ∧
    (c5p0.rotate true).2.cards.length
        = min (c5p0.cards.length + min c5p0.drawCount c5p0.backpile.length)
            (max 1 c5p0.cards.length) :=
  ⟨(claim_C5.1 c5p0 (by decide)).2.1, (claim_C5.1 c5p0 (by decide)).2.2.2 1 rfl⟩

/-! ## Claim C9 -/

/-- Claim C9: the `DESTSRC` suit/rank leaves evaluate to false whenever the
destination stack is empty — the nonempty-destination requirement is part of
the leaf itself — and on a non-empty destination they compare the
destination's top card with the source card under the configured pairwise
mode. -/
theorem claim_C9 :
    (∀ (sm : SuitMode) (rm : RankMode) (c : Card) (d : Stack), d.cards = [] →
      evalMoveCond (.destSrcSuit sm) ⟨c, d⟩ = false ∧
      evalMoveCond (.destSrcRank rm) ⟨c, d⟩ = false) ∧
    (∀ (sm : SuitMode) (rm : RankMode) (c : Card) (d : Stack) (top : Card),
      d.cards.getLast? = some top →
      evalMoveCond (.destSrcSuit sm) ⟨c, d⟩ = suitPairComp sm top.suit c.suit ∧
      evalMoveCond (.destSrcRank rm) ⟨c, d⟩ = rankPairComp rm top.rank c.rank) := by
  constructor
  · intro sm rm c d hd
    constructor <;> simp [evalMoveCond, hd]
  · intro sm rm c d top hd
    constructor <;> simp [evalMoveCond, hd, pairwiseAll]

/-- Claim C9 witness: `claim_C9` at a concrete empty and non-empty
destination. -/
theorem claim_C9_witness :
    (evalMoveCond (.destSrcSuit .ALTERNATE_COL)
        ⟨⟨.Hearts, 5, false⟩, ⟨[], "F", 0⟩⟩ = false) ∧
    (evalMoveCond (.destSrcRank .ASC)
        ⟨⟨.Hearts, 5, false⟩, ⟨[⟨.Spades, 4, false⟩], "F", 0⟩⟩
      = rankPairComp .ASC (Card.mk .Spades 4 false).rank (Card.mk .Hearts 5 false).rank) :=
  ⟨(claim_C9.1 .ALTERNATE_COL .ASC ⟨.Hearts, 5, false⟩ ⟨[], "F", 0⟩ rfl).1,
   (claim_C9.2 .ALTERNATE_COL .ASC ⟨.Hearts, 5, false⟩ ⟨[⟨.Spades, 4, false⟩], "F", 0⟩
      ⟨.Spades, 4, false⟩ rfl).2⟩

/-! ## Claims C7 and C10: no mutation on dry runs and on infeasible moves -/

theorem move_no_mutation (g : Game) (sp : PilePos) (dp : StackPos) (perform b : Bool)
    (g' : Game) (hcase : perform = false ∨ b = false)
    (h : Game.move g sp dp perform = some (b, g')) : g' = g := by
  cases sp <;> rcases hcase with rfl | rfl <;> unfold Game.move at h <;>
    repeat' split at h
  all_goals simp_all

theorem moveStack_no_mutation (g : Game) (rp : RunPos) (dp : StackPos) (perform b : Bool)
    (g' : Game) (hcase : perform = false ∨ b = false)
    (h : Game.moveStack g rp dp perform = some (b, g')) : g' = g := by
  rcases hcase with rfl | rfl <;> unfold Game.moveStack at h <;>
    repeat' split at h
  all_goals simp_all

/-- Claim C7: with `perform=false`, `move`, `move_stack`, `rotate` and `draw`
never mutate the game — no card, pile or counter changes, whether the probe
reports feasible or infeasible. -/
theorem claim_C7 :
    (∀ (g : Game) (sp : PilePos) (dp : StackPos) (b : Bool) (g' : Game),
      Game.move g sp dp false = some (b, g') → g' = g) ∧
    (∀ (g : Game) (rp : RunPos) (dp : StackPos) (b : Bool) (g' : Game),
      Game.moveStack g rp dp false = some (b, g') → g' = g) ∧
    (∀ (p : RotateDrawPile), (p.rotate false).2 = p) ∧
    (∀ (g : Game) (b : Bool) (g' : Game),
      Game.draw g false = some (b, g') → g' = g) := by
  refine ⟨?_, ?_, ?_, ?_⟩
  · intro g sp dp b g' h
    exact move_no_mutation g sp dp false b g' (Or.inl rfl) h
  · intro g rp dp b g' h
    exact moveStack_no_mutation g rp dp false b g' (Or.inl rfl) h
  · intro p
    unfold RotateDrawPile.rotate
    repeat' split
    all_goals simp_all
  · intro g b g' h
    unfold Game.draw at h
    split at h
    · exact Option.noConfusion h
    · unfold Game.dealDraw at h
      repeat' split at h
      all_goals simp_all
    · next r hr =>
      have hrot : (r.rotate false).2 = r := by
        unfold RotateDrawPile.rotate
        repeat' split
        all_goals simp_all
      simp only [Option.some.injEq, Prod.mk.injEq] at h
      rw [← h.2, hrot, ← hr]

/-- Claim C7 witness: a feasible dry-run single-card move on a concrete game
leaves the game unchanged. -/
def c7g : Game :=
  { deck := []
    drawPile := none
    nameToPiles := [("A", [⟨[⟨.Spades, 1, false⟩], "A", 0⟩]), ("B", [⟨[], "B", 0⟩])]
    moveConditions := [(("A", "B"), .destEmpty)]
    moveStackConditions := []
    autoMoveConditions := []
    autoMoveStackConditions := [] }

theorem claim_C7_witness :
    Game.move c7g (PilePos.stack ⟨"A", 0⟩) ⟨"B", 0⟩ false = some (true, c7g) ∧ c7g = c7g :=
  ⟨rfl, claim_C7.1 c7g (PilePos.stack ⟨"A", 0⟩) ⟨"B", 0⟩ true c7g rfl⟩

/-- Claim C10: whenever `move` or `move_stack` reports infeasible (returns
false) — no registered rule, empty source, out-of-range run index, face-down
card in scope, or failing condition — the game is completely unchanged even
with `perform=true`: cards are only transferred after the condition has
evaluated true. -/
theorem claim_C10 :
    (∀ (g : Game) (sp : PilePos) (dp : StackPos) (g' : Game),
      Game.move g sp dp true = some (false, g') → g' = g) ∧
    (∀ (g : Game) (rp : RunPos) (dp : StackPos) (g' : Game),
      Game.moveStack g rp dp true = some (false, g') → g' = g) := by
  constructor
  · intro g sp dp g' h
    exact move_no_mutation g sp dp true false g' (Or.inr rfl) h
  · intro g rp dp g' h
    exact moveStack_no_mutation g rp dp true false g' (Or.inr rfl) h

/-- Claim C10 witness: a performed move with no registered rule on a concrete
game reports false and leaves the game unchanged. -/
def c10g : Game :=
  { deck := []
    drawPile := none
    nameToPiles := [("A", [⟨[⟨.Spades, 1, false⟩], "A", 0⟩]), ("B", [⟨[], "B", 0⟩])]
    moveConditions := []
    moveStackConditions := []
    autoMoveConditions := []
    autoMoveStackConditions := [] }

theorem claim_C10_witness :
    Game.move c10g (PilePos.stack ⟨"A", 0⟩) ⟨"B", 0⟩ true = some (false, c10g) ∧ c10g = c10g :=
  ⟨rfl, claim_C10.1 c10g (PilePos.stack ⟨"A", 0⟩) ⟨"B", 0⟩ c10g rfl⟩

/-! ## Claim C4: the deal-draw characterization -/

/-- The flattened sequence of piles a list of target names denotes, in
iteration order: for each name, the stacks registered under it. -/
def flattenUnder (m : List (String × List Stack)) (targets : List String) : List Stack :=
  targets.flatMap (fun nm => (m.lookup nm).getD [])

theorem giveEach_fst (ss : List Stack) (dl : List Card) :
    (giveEach dl ss).1 = dl.take (dl.length - ss.length) := by
  induction ss generalizing dl with
  | nil => simp [giveEach]
  | cons s rest ih =>
    rcases List.eq_nil_or_concat' dl with rfl | ⟨init, c, rfl⟩
    · simp [giveEach, ih]
    · have hlast : (init ++ [c]).getLast? = some c := by simp
      simp only [giveEach, hlast, List.dropLast_concat]
      rw [ih init]
      have h1 : (init ++ [c]).length = init.length + 1 := by simp
      rw [h1]
      have h2 : init.length + 1 - (rest.length + 1) = init.length - rest.length := by omega
      rw [List.length_cons, h2,
        List.take_append_of_le_length (by omega : init.length - rest.length ≤ init.length)]

theorem giveEach_snd (ss : List Stack) (dl : List Card) :
    (giveEach dl ss).2
      = List.zipWith (fun s c => s.add [c.face true]) ss dl.reverse ++ ss.drop dl.length := by
  induction ss generalizing dl with
  | nil => simp [giveEach]
  | cons s rest ih =>
    rcases List.eq_nil_or_concat' dl with rfl | ⟨init, c, rfl⟩
    · simp [giveEach, ih]
    · have hlast : (init ++ [c]).getLast? = some c := by simp
      simp only [giveEach, hlast, List.dropLast_concat]
      rw [ih init]
      have h1 : (init ++ [c]).reverse = c :: init.reverse := by simp
      have h2 : (init ++ [c]).length = init.length + 1 := by simp
      rw [h1, h2, List.zipWith_cons_cons, List.drop_succ_cons, List.cons_append]

theorem lookup_updateKey_self (m : List (String × List Stack)) (nm : String) (v : List Stack) :
    (updateKey m nm v).lookup nm = (m.lookup nm).map (fun _ => v) := by
  induction m with
  | nil => rfl
  | cons e rest ih =>
    obtain ⟨k, w⟩ := e
    simp only [updateKey, List.map_cons] at ih ⊢
    by_cases h : k = nm
    · subst h
      simp [List.lookup]
    · have hk : (k == nm) = false := by simp [h]
      have hnk : (nm == k) = false := by simp [Ne.symm h]
      simp only [hk, List.lookup, hnk]
      exact ih

theorem lookup_updateKey_ne (m : List (String × List Stack)) (nm nm' : String)
    (v : List Stack) (h : nm' ≠ nm) :
    (updateKey m nm v).lookup nm' = m.lookup nm' := by
  induction m with
  | nil => rfl
  | cons e rest ih =>
    obtain ⟨k, w⟩ := e
    simp only [updateKey, List.map_cons] at ih ⊢
    by_cases he : k = nm
    · subst he
      have h' : (nm' == k) = false := by simp [h]
      simp only [beq_self_eq_true, List.lookup, h']
      exact ih
    · have hk : (k == nm) = false := by simp [he]
      simp only [hk, List.lookup]
      by_cases hc : nm' = k
      · subst hc
        simp
      · have h2 : (nm' == k) = false := by simp [hc]
        simp only [h2]
        exact ih

theorem dealNames_lookup_notin (targets : List String) (dl : List Card)
    (m : List (String × List Stack)) (nm : String) (h : nm ∉ targets) :
    (dealNames dl targets m).2.lookup nm = m.lookup nm := by
  induction targets generalizing dl m with
  | nil => rfl
  | cons t rest ih =>
    simp only [dealNames]
    rw [ih _ _ (fun hmem => h (List.mem_cons_of_mem t hmem)),
      lookup_updateKey_ne _ _ _ _
        (fun he => h (by rw [he]; exact List.mem_cons_self t rest))]

theorem flattenUnder_updateKey_notin (rest : List String) (m : List (String × List Stack))
    (nm : String) (v : List Stack) (h : nm ∉ rest) :
    flattenUnder (updateKey m nm v) rest = flattenUnder m rest := by
  induction rest with
  | nil => rfl
  | cons t ts ih =>
    simp only [flattenUnder, List.flatMap_cons]
    rw [lookup_updateKey_ne _ _ _ _
      (fun he => h (by rw [he]; exact List.mem_cons_self nm ts))]
    have := ih (fun hmem => h (List.mem_cons_of_mem t hmem))
    simp only [flattenUnder] at this
    rw [this]

theorem giveEach_append (dl : List Card) (ss tt : List Stack) :
    giveEach dl (ss ++ tt)
      = ((giveEach (giveEach dl ss).1 tt).1,
         (giveEach dl ss).2 ++ (giveEach (giveEach dl ss).1 tt).2) := by
  induction ss generalizing dl with
  | nil => simp [giveEach]
  | cons s rest ih =>
    cases hdl : dl.getLast? with
    | none => simp [giveEach, hdl, ih, List.append_eq]
    | some c => simp [giveEach, hdl, ih, List.append_eq]

theorem dealNames_spec (targets : List String) (dl : List Card)
    (m : List (String × List Stack)) (hnd : targets.Nodup) :
    (dealNames dl targets m).1 = (giveEach dl (flattenUnder m targets)).1 ∧
    flattenUnder (dealNames dl targets m).2 targets
      = (giveEach dl (flattenUnder m targets)).2 := by
  induction targets generalizing dl m with
  | nil => exact ⟨rfl, rfl⟩
  | cons t rest ih =>
    have hnotin : t ∉ rest := (List.nodup_cons.mp hnd).1
    have hnd' : rest.Nodup := (List.nodup_cons.mp hnd).2
    simp only [dealNames]
    have hflat : flattenUnder m (t :: rest)
        = ((m.lookup t).getD []) ++ flattenUnder m rest := by
      simp [flattenUnder]
    set ss := (m.lookup t).getD [] with hss
    set r := giveEach dl ss with hr
    set m1 := updateKey m t r.2 with hm1
    have hflat1 : flattenUnder m1 rest = flattenUnder m rest :=
      flattenUnder_updateKey_notin rest m t r.2 hnotin
    obtain ⟨ih1, ih2⟩ := ih r.1 m1 hnd'
    rw [hflat, giveEach_append]
    constructor
    · rw [ih1, hflat1]
    · have hlk : (dealNames r.1 rest m1).2.lookup t = m1.lookup t :=
        dealNames_lookup_notin rest r.1 m1 t hnotin
      have hlk2 : (m1.lookup t).getD [] = r.2 := by
        rw [hm1, lookup_updateKey_self]
        cases hmt : m.lookup t with
        | none =>
          have : ss = [] := by rw [hss, hmt]; rfl
          simp [this, hr, giveEach]
        | some w => simp
      have : flattenUnder (dealNames r.1 rest m1).2 (t :: rest)
          = ((dealNames r.1 rest m1).2.lookup t).getD []
            ++ flattenUnder (dealNames r.1 rest m1).2 rest := by
        simp [flattenUnder]
      rw [this, hlk, hlk2, ih2, hflat1]

/-- Claim C4: with a deal-style draw pile, `draw()` on an empty deal pile
reports infeasible with no mutation; a performed `draw()` on a non-empty deal
pile succeeds, and its one pass over the configured target pile names (each
name once, in order) pushes one face-up card — the successive tops of the
deal pile — onto each target pile while cards remain, removes exactly those
cards from the deal pile, and touches no other pile and not the deck. -/
theorem claim_C4 :
    (∀ (g : Game) (d : DealPile) (perform : Bool),
      g.drawPile = some (.deal d) → d.cards = [] →
      Game.draw g perform = some (false, g)) ∧
    (∀ (g : Game) (d : DealPile),
      g.drawPile = some (.deal d) → d.cards ≠ [] → d.targetNames.Nodup →
      Game.draw g true = some (true, (g.dealDraw d true).2) ∧
      (g.dealDraw d true).2.drawPile
        = some (.deal ⟨d.cards.take
            (d.cards.length - (flattenUnder g.nameToPiles d.targetNames).length),
            d.targetNames⟩) ∧
      flattenUnder (g.dealDraw d true).2.nameToPiles d.targetNames
        = List.zipWith (fun s c => s.add [c.face true])
            (flattenUnder g.nameToPiles d.targetNames) d.cards.reverse
          ++ (flattenUnder g.nameToPiles d.targetNames).drop d.cards.length ∧
      (∀ nm, nm ∉ d.targetNames →
        (g.dealDraw d true).2.nameToPiles.lookup nm = g.nameToPiles.lookup nm) ∧
      (g.dealDraw d true).2.deck = g.deck) := by
  constructor
  · intro g d perform hdp hcards
    simp [Game.draw, hdp, Game.dealDraw, hcards]
  · intro g d hdp hne hnd
    have hlen : ¬(d.cards.length = 0) := by
      simpa using hne
    have hdd : g.dealDraw d true
        = (true, { g with
            drawPile := some (.deal ⟨(dealNames d.cards d.targetNames g.nameToPiles).1,
              d.targetNames⟩),
            nameToPiles := (dealNames d.cards d.targetNames g.nameToPiles).2 }) := by
      simp [Game.dealDraw, hlen]
    obtain ⟨e1, e2⟩ := dealNames_spec d.targetNames d.cards g.nameToPiles hnd
    refine ⟨?_, ?_, ?_, ?_, ?_⟩
    · simp [Game.draw, hdp, hdd]
    · rw [hdd]
      rw [e1, giveEach_fst]
    · rw [hdd]
      show flattenUnder (dealNames d.cards d.targetNames g.nameToPiles).2 d.targetNames = _
      rw [e2, giveEach_snd]
    · intro nm hnm
      rw [hdd]
      exact dealNames_lookup_notin d.targetNames d.cards g.nameToPiles nm hnm
    · rw [hdd]

/-- Claim C4 witness: a two-card deal pile with targets `P`, `Q` on a concrete
game, applied to `claim_C4`. -/
def c4d : DealPile := ⟨[⟨.Spades, 1, true⟩, ⟨.Hearts, 2, true⟩], ["P", "Q"]⟩

def c4g : Game :=
  { deck := []
    drawPile := some (.deal c4d)
    nameToPiles := [("P", [⟨[], "P", 0⟩]), ("Q", [⟨[], "Q", 0⟩]), ("R", [⟨[], "R", 0⟩])]
    moveConditions := []
    moveStackConditions := []
    autoMoveConditions := []
    autoMoveStackConditions := [] }

theorem claim_C4_witness :
    Game.draw c4g true = some (true, (c4g.dealDraw c4d true).2) ∧
    (c4g.dealDraw c4d true).2.nameToPiles.lookup "R" = c4g.nameToPiles.lookup "R" :=
  ⟨(claim_C4.2 c4g c4d rfl (by decide) (by decide)).1,
   (claim_C4.2 c4g c4d rfl (by decide) (by decide)).2.2.2.1 "R" (by decide)⟩

/-! ## Claim C1 -/

/-- A board on which the intended win condition holds: a full 13-card
foundation. -/
def c1g : Game :=
  { deck := []
    drawPile := none
    nameToPiles := [("FOUNDATION", [⟨(List.range 13).map (fun i => ⟨.Spades, i + 1, false⟩),
      "FOUNDATION", 0⟩])]
    moveConditions := []
    moveStackConditions := []
    autoMoveConditions := []
    autoMoveStackConditions := [] }

/-- The `$win` tree `PILE ALL FOUNDATION Size == 13` for that board. -/
def c1win : GeneralCond := .pileSize ["FOUNDATION"] .ALL .EQ 13

/-- Claim C1: src/game.py's `is_win` is the stub `return False  # TODO`; it
returns false even on a board whose configured win condition tree evaluates
to true, contradicting the specified Playing-to-Won detection (src/parser.py's
`apply_win` even calls a `Game.define_win_cond` that src/game.py lacks). -/
theorem claim_C1 : evalGeneralCond c1g c1win = true ∧ Game.isWin c1g = false := by
  constructor
  · decide
  · rfl

/-! ## Claim C8 -/

/-- Three face-down cards to be auto-dealt into a stack. -/
def c8deck : List Card := [⟨.Spades, 1, true⟩, ⟨.Hearts, 2, true⟩, ⟨.Clubs, 3, true⟩]

/-- The `$initial` line `T 3 FACE_ALL` after `split_line`. -/
def c8parts : List String := ["T", "3", "FACE_ALL"]

/-- A game right before the `$initial` stack line is applied. -/
def c8base : Game :=
  { deck := c8deck
    drawPile := none
    nameToPiles := []
    moveConditions := []
    moveStackConditions := []
    autoMoveConditions := []
    autoMoveStackConditions := [] }

/-- Claim C8: `apply_initial` parses the facing token of an `$initial` stack
line but discards the parsed mode (`face` is never reassigned), so the pile
declared `FACE_ALL` is still built with the default `FACE_LAST` — only its
top card face-up — although `apply_face` itself implements `FACE_ALL`
(all up) and `FACE_ALTERNATE_TOP` (alternating from the top) as specified. -/
theorem claim_C8 :
    initialFaceOf c8parts = Face.FACE_LAST ∧
    ((c8base.definePile "T" 3 (initialFaceOf c8parts) none).lookupPiles "T").map
        (fun s => s.cards.map Card.faceDown) = [[true, true, false]] ∧
    ((Stack.mk c8deck "T" 0).applyFace Face.FACE_ALL).cards.map Card.faceDown
        = [false, false, false] ∧
    ((Stack.mk c8deck "T" 0).applyFace Face.FACE_ALTERNATE_TOP).cards.map Card.faceDown
        = [false, true, false] := by
  refine ⟨rfl, ?_, rfl, rfl⟩
  decide

/-! ## Claim C2 -/

/-- A game with a manual rule A→B and an automatic rule B→C, both satisfied
by a Spade: after the manual move lands the Spade on B, the auto rule B→C is
applicable. -/
def c2g : Game :=
  { deck := []
    drawPile := none
    nameToPiles := [("A", [⟨[⟨.Spades, 5, false⟩], "A", 0⟩]),
                    ("B", [⟨[], "B", 0⟩]),
                    ("C", [⟨[], "C", 0⟩])]
    moveConditions := [(("A", "B"), .srcSuit [.Spades])]
    moveStackConditions := []
    autoMoveConditions := [(("B", "C"), .srcSuit [.Spades])]
    autoMoveStackConditions := [] }

/-- Claim C2 counterexample: the successful performed move A→B does NOT
trigger automatic-move resolution — on the state `move` returns, the
registered auto rule B→C is still applicable (a dry run reports it legal), so
the board is not at the auto-move fixed point the claim requires. -/
theorem claim_C2_counterexample :
    (Game.move c2g (PilePos.stack ⟨"A", 0⟩) ⟨"B", 0⟩ true).map
        (fun r => (r.1, r.2.autoMoveApplicable)) = some (true, true) := by
  decide

/-- Claim C2 (amended): when a move rule is registered for the source and
destination names, the source top card exists and is face-up, and the
condition evaluates true, `move` with `perform=true` returns true and
transfers exactly the source's top card onto the destination's top (for
distinct positions; the analogous statement holds with the draw pile as
source) — and nothing else: the resulting state is exactly the two-pile
update, with no automatic-move resolution applied. -/
theorem claim_C2 :
    (∀ (g : Game) (sp dp : StackPos) (srcStack destStack src' : Stack)
        (cond : MoveCond) (top : Card),
      g.getStack sp = some srcStack →
      g.getStack dp = some destStack →
      g.moveConditions.lookup (sp.pilename, dp.pilename) = some cond →
      srcStack.get = some (top, src') →
      top.faceDown = false →
      evalMoveCond cond ⟨top, destStack⟩ = true →
      sp ≠ dp →
      Game.move g (.stack sp) dp true
        = some (true, (g.setStack sp src').setStack dp (destStack.add [top]))) ∧
    (∀ (g : Game) (dp : StackPos) (dpl dpl' : DrawPile) (destStack : Stack)
        (cond : MoveCond) (top c : Card),
      g.drawPile = some dpl →
      g.getStack dp = some destStack →
      g.moveConditions.lookup ("DRAW", dp.pilename) = some cond →
      dpl.peak = some top →
      top.faceDown = false →
      evalMoveCond cond ⟨top, destStack⟩ = true →
      dpl.get = some (c, dpl') →
      Game.move g .draw dp true
        = some (true, (g.setDrawPile dpl').setStack dp (destStack.add [c]))) := by
  constructor
  · intro g sp dp srcStack destStack src' cond top hgs hgd hlk hget hfd hev hne
    have hl : srcStack.cards.getLast? = some top := by
      unfold Stack.get at hget
      cases hc : srcStack.cards.getLast? with
      | none => rw [hc] at hget; exact Option.noConfusion hget
      | some c0 =>
        rw [hc] at hget
        simp only [Option.some.injEq, Prod.mk.injEq] at hget
        rw [hget.1]
    simp only [Game.move, hgs, hgd, hlk, hl, hfd, hev, hget, Bool.false_eq_true,
      if_false, Bool.not_true, if_true, if_neg hne]
  · intro g dp dpl dpl' destStack cond top c hdpl hgd hlk hpk hfd hev hget
    simp only [Game.move, hdpl, hgd, hlk, hpk, hfd, hev, hget, Bool.false_eq_true,
      if_false, Bool.not_true, if_true]

/-- Claim C2 witness: the amended theorem applied to the concrete game. -/
theorem claim_C2_witness :
    Game.move c2g (PilePos.stack ⟨"A", 0⟩) ⟨"B", 0⟩ true
      = some (true, (c2g.setStack ⟨"A", 0⟩ ⟨[], "A", 0⟩).setStack ⟨"B", 0⟩
          (Stack.add ⟨[], "B", 0⟩ [⟨.Spades, 5, false⟩])) :=
  claim_C2.1 c2g ⟨"A", 0⟩ ⟨"B", 0⟩ ⟨[⟨.Spades, 5, false⟩], "A", 0⟩ ⟨[], "B", 0⟩
    ⟨[], "A", 0⟩ (.srcSuit [.Spades]) ⟨.Spades, 5, false⟩
    rfl rfl rfl rfl rfl rfl (by decide)

/-! ## Claim C3 -/

theorem copy_allRefs (g : HGame) :
    g.copy.allRefs = g.allRefs.map (· + g.store.length) := by
  simp only [HGame.copy, HGame.allRefs, List.map_append, List.flatMap_map, List.map_flatMap,
    id_eq]

/-- Claim C3: `Game.copy` (modelled from the spec over the explicit-identity
`HGame`) shares the rule tables by reference while re-allocating every card:
the copy's card references are disjoint from the original's, each fresh
reference holds the same card value as its source, and writing through any
reference of the copy leaves the card seen through every reference of the
original untouched — and vice versa — so mutating the copy through any
move/draw operation (which only writes through the mutated game's own
references) leaves the original unchanged. -/
theorem claim_C3 :
    ∀ (g : HGame), (∀ r ∈ g.allRefs, r < g.store.length) →
      g.copy.ruleTablesRef = g.ruleTablesRef ∧
      g.copy.allRefs = g.allRefs.map (· + g.store.length) ∧
      (∀ r ∈ g.allRefs, ∀ r' ∈ g.copy.allRefs, r ≠ r') ∧
      (∀ r ∈ g.allRefs, g.copy.store.get? r = g.store.get? r) ∧
      (∀ r ∈ g.allRefs, g.copy.store.get? (r + g.store.length) = g.store.get? r) ∧
      (∀ r' ∈ g.copy.allRefs, ∀ cv : Card, ∀ r ∈ g.allRefs,
        (g.copy.store.set r' cv).get? r = g.copy.store.get? r) ∧
      (∀ r ∈ g.allRefs, ∀ cv : Card, ∀ r' ∈ g.copy.allRefs,
        (g.copy.store.set r cv).get? r' = g.copy.store.get? r') := by
  intro g hv
  have hrefs := copy_allRefs g
  have hdisj : ∀ r ∈ g.allRefs, ∀ r' ∈ g.copy.allRefs, r ≠ r' := by
    intro r hr r' hr'
    rw [hrefs] at hr'
    obtain ⟨x, hx, rfl⟩ := List.mem_map.mp hr'
    have := hv r hr
    omega
  have hstore : g.copy.store = g.store ++ g.store.map Card.copy := rfl
  refine ⟨rfl, hrefs, hdisj, ?_, ?_, ?_, ?_⟩
  · intro r hr
    rw [hstore, List.get?_append (hv r hr)]
  · intro r hr
    rw [hstore, List.get?_append_right (by omega), Nat.add_sub_cancel, List.get?_map]
    have hid : Card.copy = fun cv : Card => cv := rfl
    rw [hid]
    cases g.store.get? r <;> rfl
  · intro r' hr' cv r hr
    exact List.get?_set_ne cv _ (hdisj r hr r' hr').symm
  · intro r hr cv r' hr'
    exact List.get?_set_ne cv _ (hdisj r hr r' hr')

/-- Claim C3 witness: `claim_C3` on a concrete two-card game. -/
def c3g : HGame :=
  { store := [⟨.Spades, 1, true⟩, ⟨.Hearts, 2, false⟩]
    deckRefs := [0]
    drawRefs := []
    pileRefs := [("A", [[1]])]
    ruleTablesRef := 7 }

theorem claim_C3_witness :
    c3g.copy.ruleTablesRef = c3g.ruleTablesRef ∧
    c3g.copy.allRefs = c3g.allRefs.map (· + c3g.store.length) :=
  ⟨(claim_C3 c3g (by decide)).1, (claim_C3 c3g (by decide)).2.1⟩

end SGDL
